import Mathlib

/-!
Verification of the chess legality and game-termination engine of the
repository (the websocket chess server in `server.js`).

The board is a linear array of 64 cells, index 0 = a8 (black's back rank)
through 63 = h1 (white's back rank); a cell holds `null` or a two-character
piece string such as "wK".  We embed cells as `Option Piece`.  JavaScript
array reads out of range yield `undefined` (falsy), which we model as `none`;
out-of-range writes are modelled as no-ops (no claim exercises them).

The room state consists of the board, the side to move, the set
`movedPieces` of square indices that have occurred as the origin of an
accepted move, the en-passant target square (`-1` when absent, as in the
source), and the `winner` / `isDraw` outcome fields.  The source stores the
winner as the role string of the mover; since an accepted move's role
determines its color through the room's role map, we record the mover's
color instead.

`isMoveLegal` and `isKingInCheck` are mutually recursive in the source
(the castling branch of `isMoveLegal` consults `isKingInCheck`, whose scan
calls `isMoveLegal` on enemy pieces).  The recursion is semantically shallow
-- a king "castling onto" the scanned king always finds its path blocked by
that king -- but we make termination explicit with a fuel parameter; the
public wrappers use fuel 64, far above the depth any input can reach, so the
fuelled functions agree with the source wherever the source terminates.
`isMoveLegal` consults the room state only through `movedPieces` and
`enPassantTarget`, so those two are taken as parameters (the source passes
the whole room object and reads just these fields); the unused
`skipKingCheck` parameter of the source is dropped.
-/

namespace LudoServer

inductive Color where
  | white
  | black
deriving DecidableEq

def Color.other : Color → Color
  | .white => .black
  | .black => .white

inductive Kind where
  | P
  | N
  | B
  | R
  | Q
  | K
deriving DecidableEq

structure Piece where
  color : Color
  kind : Kind
deriving DecidableEq

abbrev Cell := Option Piece

abbrev Board := List Cell

/-- JS `board[i]` for a natural index: out of range reads give `undefined`. -/
def getCell (b : Board) (i : Nat) : Cell := b.getD i none

/-- JS `board[i]` where the index may be a negative number. -/
def cellAtI (b : Board) (i : Int) : Cell := if i < 0 then none else getCell b i.toNat

/-- JS `board[i] = v` for an in-range index (out of range: no-op). -/
def setCell (b : Board) (i : Nat) (v : Cell) : Board := b.set i v

def setCellI (b : Board) (i : Int) (v : Cell) : Board :=
  if i < 0 then b else setCell b i.toNat v

/-- `simulateMove(board, from, to)`: copy the board, put the content of
`from` at `to`, then empty `from` (in that order, as in the source). -/
def simulateMove (board : Board) (f t : Nat) : Board :=
  setCell (setCell board t (getCell board f)) f none

/-- `Math.abs(a - b)` for two natural numbers. -/
def dist (a b : Nat) : Nat := max a b - min a b

/-- JS `toRow === fromRow ? 0 : (toRow > fromRow ? 1 : -1)`. -/
def stepDir (a b : Nat) : Int := if b = a then 0 else if b > a then 1 else -1

/-- The `while (r !== toRow || c !== toCol)` walk of `isPathClear`.  The
source loop does not terminate on some non-aligned inputs; the fuel makes
the embedding total, `none` standing for divergence.  On aligned inputs the
walk needs at most 7 steps, far below the fuel of 64 used below. -/
def pathGo (b : Board) (tr tc dr dc : Int) : Nat → Int → Int → Option Bool
  | 0, _, _ => none
  | n + 1, r, c =>
    if r = tr ∧ c = tc then some true
    else if (cellAtI b (r * 8 + c)).isSome then some false
    else pathGo b tr tc dr dc n (r + dr) (c + dc)

/-- `isPathClear(from, to, board)` of the source. -/
def isPathClear (f t : Nat) (b : Board) : Option Bool :=
  let fr := f / 8
  let fc := f % 8
  let tr := t / 8
  let tc := t % 8
  let dr := stepDir fr tr
  let dc := stepDir fc tc
  pathGo b (tr : Int) (tc : Int) dr dc 64 ((fr : Int) + dr) ((fc : Int) + dc)

/-- `isPathClear` as a boolean, for the call sites inside `isMoveLegal`
(all of which pass aligned squares, where the walk terminates). -/
def pathClearB (f t : Nat) (b : Board) : Bool := (isPathClear f t b).getD false

mutual

/-- `isMoveLegal(from, to, board, playerColor, state)` of the source,
with `state` reduced to its consulted fields `movedPieces` and
`enPassantTarget`.  The source returns the pseudo-legality flag directly
("Suicide moves allowed"): there is no post-move self-check filter. -/
def isMoveLegalF : Nat → Nat → Nat → Board → Color → List Int → Int → Bool
  | 0, _, _, _, _, _, _ => false
  | fuel + 1, f, t, b, pc, moved, ep =>
    match getCell b f with
    | none => false
    | some piece =>
      if piece.color ≠ pc then false
      else
        let target := getCell b t
        if (match target with
            | some q => decide (q.color = pc)
            | none => false) then false
        else
          let fr := f / 8
          let fc := f % 8
          let tr := t / 8
          let tc := t % 8
          let rowDiff := dist fr tr
          let colDiff := dist fc tc
          match piece.kind with
          | .P =>
            let dir : Int := if pc = .white then -1 else 1
            if fc = tc ∧ target = none then
              if (tr : Int) = (fr : Int) + dir then true
              else if fr = (if pc = .white then 6 else 1) ∧
                  (tr : Int) = (fr : Int) + 2 * dir ∧
                  cellAtI b ((f : Int) + 8 * dir) = none then true
              else false
            else if colDiff = 1 ∧ (tr : Int) = (fr : Int) + dir then
              target.isSome || decide (ep = (t : Int))
            else false
          | .R => (decide (fr = tr) || decide (fc = tc)) && pathClearB f t b
          | .B => decide (rowDiff = colDiff) && pathClearB f t b
          | .Q => (decide (rowDiff = colDiff) || decide (fr = tr) || decide (fc = tc)) &&
              pathClearB f t b
          | .N => decide ((rowDiff = 2 ∧ colDiff = 1) ∨ (rowDiff = 1 ∧ colDiff = 2))
          | .K =>
            if rowDiff ≤ 1 ∧ colDiff ≤ 1 then true
            else if rowDiff = 0 ∧ colDiff = 2 ∧ ¬ ((f : Int) ∈ moved) then
              let rookIdx : Int := if tc > fc then (f : Int) + 3 else (f : Int) - 4
              if (cellAtI b rookIdx).isSome ∧ ¬ (rookIdx ∈ moved) ∧
                  pathClearB f rookIdx.toNat b = true then
                !(isKingInCheckF fuel b pc moved ep)
              else false
            else false

/-- `isKingInCheck(board, color, state)` of the source: locate the first
cell equal to `color + 'K'`; if absent, report not in check; otherwise ask
whether any enemy piece has a pseudo-legal move onto that square. -/
def isKingInCheckF : Nat → Board → Color → List Int → Int → Bool
  | 0, _, _, _, _ => false
  | fuel + 1, b, color, moved, ep =>
    match b.findIdx? (fun c => decide (c = some ⟨color, .K⟩)) with
    | none => false
    | some kingPos =>
      (List.range 64).any fun i =>
        match getCell b i with
        | some p => decide (p.color = color.other) && isMoveLegalF fuel i kingPos b color.other moved ep
        | none => false

end

def isMoveLegal (f t : Nat) (b : Board) (pc : Color) (moved : List Int) (ep : Int) : Bool :=
  isMoveLegalF 64 f t b pc moved ep

def isKingInCheck (b : Board) (color : Color) (moved : List Int) (ep : Int) : Bool :=
  isKingInCheckF 64 b color moved ep

/-- `hasLegalEscapes(board, color, state)` of the source: some piece of
`color` has a pseudo-legal move whose simulation leaves `color`'s king not
in check. -/
def hasLegalEscapes (b : Board) (color : Color) (moved : List Int) (ep : Int) : Bool :=
  (List.range 64).any fun i =>
    (match getCell b i with
     | some p => decide (p.color = color)
     | none => false) &&
    ((List.range 64).any fun j =>
      isMoveLegal i j b color moved ep &&
      !(isKingInCheck (simulateMove b i j) color moved ep))

/-- The per-room authoritative state of the MOVE handler.  `movedPieces`
is a JS `Set` of numbers, embedded as a duplicate-free list with
insertion-if-absent; `enPassantTarget` uses the source's `-1` sentinel for
"absent"; `winner` records the mover's color (the source stores the mover's
role string, which the room's role map puts in bijection with colors). -/
structure RoomState where
  board : Board
  turn : Color
  movedPieces : List Int
  enPassantTarget : Int
  winner : Option Color
  isDraw : Bool
deriving DecidableEq

/-- `room.movedPieces.add(x)` (JS `Set.add`: no duplicate is created). -/
def addMoved (x : Int) (l : List Int) : List Int := if x ∈ l then l else x :: l

/-- JS `cell && cell[1] === k` for a piece-kind character test. -/
def cellKindIs (c : Cell) (k : Kind) : Bool :=
  match c with
  | some p => decide (p.kind = k)
  | none => false

/-- The state-mutation block of the MOVE handler for an accepted move
(`server.js` lines 153-178): simulate the basic relocation, then in order
apply en-passant capture removal, the castling rook relocation (which also
marks the rook square moved), and auto-queen promotion; record the origin
square as moved, set or reset the en-passant target, and flip the turn. -/
def commitMove (s : RoomState) (mover : Color) (f t : Nat) : RoomState :=
  let piece := getCell s.board f
  let b1 := simulateMove s.board f t
  let b2 := if cellKindIs piece .P && decide (s.enPassantTarget = (t : Int)) then
      setCellI b1 ((t : Int) + (if mover = .white then 8 else -8)) none
    else b1
  let isCastle := cellKindIs piece .K && decide (dist f t = 2)
  let rFrom : Int := if t > f then (f : Int) + 3 else (f : Int) - 4
  let rTo : Int := if t > f then (f : Int) + 1 else (f : Int) - 1
  let b3 := if isCastle then setCellI (setCellI b2 rTo (cellAtI b2 rFrom)) rFrom none else b2
  let moved1 := if isCastle then addMoved rFrom s.movedPieces else s.movedPieces
  let b4 := if cellKindIs piece .P && (decide (t / 8 = 0) || decide (t / 8 = 7)) then
      setCell b3 t (some ⟨mover, .Q⟩)
    else b3
  let ep2 : Int := if cellKindIs piece .P && decide (dist f t = 16) then ((f + t) / 2 : Nat) else -1
  { board := b4, turn := mover.other, movedPieces := addMoved (f : Int) moved1,
    enPassantTarget := ep2, winner := s.winner, isDraw := s.isDraw }

/-- The game-end classification run after a committed move (`server.js`
lines 180-195): with the turn already flipped, if the side now to move has
no legal escape, the mover wins when that side's king is in check, and the
game is a draw otherwise. -/
def evalOutcome (c : RoomState) (mover : Color) : RoomState :=
  let whiteInCheck := isKingInCheck c.board .white c.movedPieces c.enPassantTarget
  let blackInCheck := isKingInCheck c.board .black c.movedPieces c.enPassantTarget
  let canEscape := hasLegalEscapes c.board c.turn c.movedPieces c.enPassantTarget
  if !canEscape then
    if (if c.turn = .white then whiteInCheck else blackInCheck) then
      { c with winner := some mover }
    else
      { c with isDraw := true }
  else c

/-- The full MOVE message handler as a state transformer: drop the proposal
when the game is over, when it is not the proposer's turn, or when the move
is not legal; otherwise commit and classify.  The handler reads only
`msg.from` and `msg.to`; a promotion kind carried by the message (`promo`)
is never consulted. -/
def processMove (s : RoomState) (mover : Color) (f t : Nat) (promo : Option Kind) : RoomState :=
  if s.winner.isSome || s.isDraw then s
  else if s.turn ≠ mover then s
  else if isMoveLegal f t s.board mover s.movedPieces s.enPassantTarget then
    evalOutcome (commitMove s mover f t) mover
  else s

/-- A move proposal passes all three gates of the MOVE handler. -/
def accepts (s : RoomState) (mover : Color) (f t : Nat) : Bool :=
  !s.winner.isSome && !s.isDraw && decide (s.turn = mover) &&
    isMoveLegal f t s.board mover s.movedPieces s.enPassantTarget

/-- `initialChessBoard` of the source. -/
def initialChessBoard : Board :=
  [some ⟨.black, .R⟩, some ⟨.black, .N⟩, some ⟨.black, .B⟩, some ⟨.black, .Q⟩,
   some ⟨.black, .K⟩, some ⟨.black, .B⟩, some ⟨.black, .N⟩, some ⟨.black, .R⟩]
  ++ List.replicate 8 (some ⟨.black, .P⟩)
  ++ List.replicate 32 none
  ++ List.replicate 8 (some ⟨.white, .P⟩)
  ++ [some ⟨.white, .R⟩, some ⟨.white, .N⟩, some ⟨.white, .B⟩, some ⟨.white, .Q⟩,
      some ⟨.white, .K⟩, some ⟨.white, .B⟩, some ⟨.white, .N⟩, some ⟨.white, .R⟩]

/-- The state a fresh room is created with. -/
def initialState : RoomState :=
  { board := initialChessBoard, turn := .white, movedPieces := [],
    enPassantTarget := -1, winner := none, isDraw := false }


/-- Claim-side characterization for C8: square `s` lies strictly between
squares `f` and `t` on their common rank, file, or diagonal — it is one of
the intermediate points `(fRow + k*dr, fCol + k*dc)` for `0 < k < steps` of
the unit-step line from `f` to `t`. -/
def betweenB (f t s : Nat) : Bool :=
  let n := max (dist (f / 8) (t / 8)) (dist (f % 8) (t % 8))
  (List.range 8).any fun k =>
    decide (0 < k) && decide (k < n) &&
    decide ((s / 8 : Nat) = ((f / 8 : Nat) : Int) + k * stepDir (f / 8) (t / 8)) &&
    decide ((s % 8 : Nat) = ((f % 8 : Nat) : Int) + k * stepDir (f % 8) (t % 8))

/-! ### Concrete positions and traces used to settle the claims -/

def blankBoard : Board := List.replicate 64 none

def placePieces (ps : List (Nat × Piece)) : Board :=
  ps.foldl (fun b p => setCell b p.1 (some p.2)) blankBoard

def stateWith (b : Board) (c : Color) : RoomState :=
  { board := b, turn := c, movedPieces := [], enPassantTarget := -1,
    winner := none, isDraw := false }

/-- White rook e2 is pinned by the black rook e8 against the white king e1;
moving the rook off the e-file exposes the king. -/
def pinState : RoomState :=
  stateWith (placePieces
    [(7, ⟨.black, .K⟩), (4, ⟨.black, .R⟩), (52, ⟨.white, .R⟩), (60, ⟨.white, .K⟩)]) .white

/-- White may castle kingside, but the black rook on f8 attacks the transit
square f1 (and nothing attacks the king's start square e1). -/
def castleAttackState : RoomState :=
  stateWith (placePieces
    [(60, ⟨.white, .K⟩), (63, ⟨.white, .R⟩), (5, ⟨.black, .R⟩), (7, ⟨.black, .K⟩)]) .white

/-- A white pawn on a7 about to promote on a8. -/
def promoState : RoomState :=
  stateWith (placePieces
    [(8, ⟨.white, .P⟩), (60, ⟨.white, .K⟩), (4, ⟨.black, .K⟩)]) .white

/-- A back-rank mate in one: Rh7-h8 mates the black king on a8. -/
def mateState : RoomState :=
  stateWith (placePieces
    [(0, ⟨.black, .K⟩), (15, ⟨.white, .R⟩), (16, ⟨.white, .K⟩)]) .white

/-- A stalemate in one: Qa6-b6 leaves the lone black king on a8 with no
move while not in check. -/
def staleState : RoomState :=
  stateWith (placePieces
    [(0, ⟨.black, .K⟩), (16, ⟨.white, .Q⟩), (63, ⟨.white, .K⟩)]) .white

/-- A position with no en-passant target where a white pawn on e5 could
step diagonally to the empty square d6. -/
def epRejectState : RoomState :=
  stateWith (placePieces
    [(28, ⟨.white, .P⟩), (60, ⟨.white, .K⟩), (4, ⟨.black, .K⟩)]) .white

/-- The position immediately after black's double advance d7-d5 with a
white pawn on e5: the en-passant target is d6 (square 19). -/
def epCaptureState : RoomState :=
  { board := placePieces
      [(28, ⟨.white, .P⟩), (27, ⟨.black, .P⟩), (60, ⟨.white, .K⟩), (4, ⟨.black, .K⟩)],
    turn := .white, movedPieces := [11], enPassantTarget := 19,
    winner := none, isDraw := false }

/-- Two bare kings, white a1 and black h8. -/
def kingsState : RoomState :=
  stateWith (placePieces [(7, ⟨.black, .K⟩), (56, ⟨.white, .K⟩)]) .white

/-- Apply a list of move proposals (mover, from, to) through the MOVE
handler in order. -/
def applyMoves (s : RoomState) : List (Color × Nat × Nat) → RoomState
  | [] => s
  | m :: ms => applyMoves (processMove s m.1 m.2.1 m.2.2 none) ms

/-- Every proposal in the list is accepted, and none of them is a pawn
move or a capture (the trace is "quiet" for the fifty-move rule). -/
def quietAccepted (s : RoomState) : List (Color × Nat × Nat) → Bool
  | [] => true
  | m :: ms =>
    accepts s m.1 m.2.1 m.2.2 &&
    !(cellKindIs (getCell s.board m.2.1) .P) &&
    (getCell s.board m.2.2).isNone &&
    quietAccepted (processMove s m.1 m.2.1 m.2.2 none) ms

/-- Both kings step out and back: four plies returning to the same
position, none of them a pawn move or a capture. -/
def kingShuffle : List (Color × Nat × Nat) :=
  [(.white, 56, 48), (.black, 7, 15), (.white, 48, 56), (.black, 15, 7)]

/-- `n` repetitions of the king shuffle. -/
def kingShuffleRep : Nat → List (Color × Nat × Nat)
  | 0 => []
  | n + 1 => kingShuffle ++ kingShuffleRep n

/-- The state reached after one full king shuffle from `kingsState`: the
same position, with the four visited squares recorded in `movedPieces`
(newest first, as `addMoved` conses). -/
def kingsCycleState : RoomState :=
  { board := placePieces [(7, ⟨.black, .K⟩), (56, ⟨.white, .K⟩)],
    turn := .white, movedPieces := [15, 48, 7, 56], enPassantTarget := -1,
    winner := none, isDraw := false }

/-- Eight plies from the initial position after which the black knight has
captured the white h1-rook, with white's e1 king unmoved and f1, g1 empty:
g2-g3, Ng8-h6, Bf1-g2, Nh6-f5, Ng1-f3, Nf5xg3, Nf3-e5, Ng3xh1. -/
def knightCastleTrace : List (Color × Nat × Nat) :=
  [(.white, 54, 46), (.black, 6, 23), (.white, 61, 54), (.black, 23, 29),
   (.white, 62, 45), (.black, 29, 46), (.white, 45, 28), (.black, 46, 63)]

/-- The reachable state in which h1 holds a black knight and white can
still "castle" kingside. -/
def knightCastleState : RoomState := applyMoves initialState knightCastleTrace

/-- The same state written out: the h1 square (index 63) holds the black
knight that captured the rook, e1/f1/g1 are the unmoved white king and two
empty squares, and neither 60 nor 63 occurs in `movedPieces`. -/
def knightCastleStateLit : RoomState :=
  { board := placePieces
      [(0, ⟨.black, .R⟩), (1, ⟨.black, .N⟩), (2, ⟨.black, .B⟩), (3, ⟨.black, .Q⟩),
       (4, ⟨.black, .K⟩), (5, ⟨.black, .B⟩), (7, ⟨.black, .R⟩),
       (8, ⟨.black, .P⟩), (9, ⟨.black, .P⟩), (10, ⟨.black, .P⟩), (11, ⟨.black, .P⟩),
       (12, ⟨.black, .P⟩), (13, ⟨.black, .P⟩), (14, ⟨.black, .P⟩), (15, ⟨.black, .P⟩),
       (28, ⟨.white, .N⟩),
       (48, ⟨.white, .P⟩), (49, ⟨.white, .P⟩), (50, ⟨.white, .P⟩), (51, ⟨.white, .P⟩),
       (52, ⟨.white, .P⟩), (53, ⟨.white, .P⟩), (55, ⟨.white, .P⟩),
       (54, ⟨.white, .B⟩),
       (56, ⟨.white, .R⟩), (57, ⟨.white, .N⟩), (58, ⟨.white, .B⟩), (59, ⟨.white, .Q⟩),
       (60, ⟨.white, .K⟩), (63, ⟨.black, .N⟩)],
    turn := .white, movedPieces := [46, 45, 29, 62, 23, 61, 6, 54],
    enPassantTarget := -1, winner := none, isDraw := false }


/-! ### Basic lemmas about cell access and the handler's structure -/

theorem getCell_setCell_self (b : Board) (i : Nat) (v : Cell) (h : i < b.length) :
    getCell (setCell b i v) i = v := by
  simp [getCell, setCell, List.getD_eq_getElem?_getD, List.getElem?_set_self h]

theorem getCell_setCell_ne (b : Board) {i j : Nat} (v : Cell) (h : i ≠ j) :
    getCell (setCell b i v) j = getCell b j := by
  simp [getCell, setCell, List.getD_eq_getElem?_getD, List.getElem?_set_ne h]

theorem getCell_of_le (b : Board) {i : Nat} (h : b.length ≤ i) : getCell b i = none := by
  simp [getCell, List.getD_eq_getElem?_getD, List.getElem?_eq_none h]

theorem length_setCell (b : Board) (i : Nat) (v : Cell) :
    (setCell b i v).length = b.length := by
  simp [setCell]

theorem length_simulateMove (b : Board) (f t : Nat) :
    (simulateMove b f t).length = b.length := by
  simp [simulateMove, length_setCell]

theorem evalOutcome_board (c : RoomState) (mover : Color) :
    (evalOutcome c mover).board = c.board := by
  rw [evalOutcome]
  repeat' split
  all_goals rfl

theorem evalOutcome_turn (c : RoomState) (mover : Color) :
    (evalOutcome c mover).turn = c.turn := by
  rw [evalOutcome]
  repeat' split
  all_goals rfl

theorem evalOutcome_movedPieces (c : RoomState) (mover : Color) :
    (evalOutcome c mover).movedPieces = c.movedPieces := by
  rw [evalOutcome]
  repeat' split
  all_goals rfl

theorem evalOutcome_enPassantTarget (c : RoomState) (mover : Color) :
    (evalOutcome c mover).enPassantTarget = c.enPassantTarget := by
  rw [evalOutcome]
  repeat' split
  all_goals rfl

theorem accepts_spec (s : RoomState) (mover : Color) (f t : Nat) (h : accepts s mover f t = true) :
    s.winner = none ∧ s.isDraw = false ∧ s.turn = mover ∧
      isMoveLegal f t s.board mover s.movedPieces s.enPassantTarget = true := by
  rw [accepts] at h
  simp only [Bool.and_eq_true, Bool.not_eq_true', decide_eq_true_eq] at h
  refine ⟨?_, h.1.1.2, h.1.2, h.2⟩
  have := h.1.1.1
  cases hw : s.winner
  · rfl
  · rw [hw] at this; simp at this

theorem processMove_accepted (s : RoomState) (mover : Color) (f t : Nat) (promo : Option Kind)
    (h : accepts s mover f t = true) :
    processMove s mover f t promo = evalOutcome (commitMove s mover f t) mover := by
  obtain ⟨hw, hd, ht, hl⟩ := accepts_spec s mover f t h
  rw [processMove]
  rw [if_neg (by simp [hw, hd]), if_neg (by simp [ht]), if_pos hl]

/-! ### Claim C9 -/

/-- Claim C9, counterexample: the claim quantifies over every pair of
squares, but for `from = to` on an occupied square `simulateMove` clears
the square, so the content of `to` afterwards is not the previous content
of `from` (the a8 rook disappears). -/
theorem simulateMove_same_square_counterexample :
    getCell (simulateMove initialChessBoard 0 0) 0 = none ∧
    getCell initialChessBoard 0 = some ⟨.black, .R⟩ := by
  constructor <;> rfl

/-- Claim C9 (amended: the two squares must be distinct; `simulateMove`
clears the square when `from = to`): for distinct squares with `to` inside
the board, the returned board holds the previous content of `from` at `to`,
is empty at `from`, and is unchanged elsewhere.  The input board itself is
not modified (the source copies the array; in this pure embedding a new
list is returned). -/
theorem simulateMove_frame (b : Board) (f t : Nat) (hft : f ≠ t) (ht : t < b.length) :
    getCell (simulateMove b f t) t = getCell b f ∧
    getCell (simulateMove b f t) f = none ∧
    ∀ i, i ≠ f → i ≠ t → getCell (simulateMove b f t) i = getCell b i := by
  refine ⟨?_, ?_, ?_⟩
  · rw [simulateMove, getCell_setCell_ne _ _ hft]
    exact getCell_setCell_self _ _ _ ht
  · rw [simulateMove]
    rcases Nat.lt_or_ge f (setCell b t (getCell b f)).length with hf | hf
    · exact getCell_setCell_self _ _ _ hf
    · rw [getCell_of_le _ (by simpa [length_setCell] using hf)]
  · intro i hif hit
    rw [simulateMove, getCell_setCell_ne _ _ fun h => hif h.symm,
      getCell_setCell_ne _ _ fun h => hit h.symm]

/-- Claim C9, witness: the amended frame property evaluated for the move
e2-e4 on the initial board. -/
theorem simulateMove_frame_witness :
    getCell (simulateMove initialChessBoard 52 36) 36 = some ⟨.white, .P⟩ ∧
    getCell (simulateMove initialChessBoard 52 36) 52 = none ∧
    getCell (simulateMove initialChessBoard 52 36) 0 = getCell initialChessBoard 0 := by
  obtain ⟨h1, h2, h3⟩ := simulateMove_frame initialChessBoard 52 36 (by decide) (by decide)
  exact ⟨by rw [h1]; rfl, h2, h3 0 (by decide) (by decide)⟩

theorem processMove_rejected (s : RoomState) (mover : Color) (f t : Nat)
    (promo : Option Kind) (h : accepts s mover f t = false) :
    processMove s mover f t promo = s := by
  rw [processMove]
  by_cases h1 : (s.winner.isSome || s.isDraw) = true
  · rw [if_pos h1]
  · rw [if_neg h1]
    by_cases h2 : s.turn = mover
    · by_cases h3 : isMoveLegal f t s.board mover s.movedPieces s.enPassantTarget = true
      · exfalso
        rw [accepts, h2, h3] at h
        simp [Bool.or_eq_true, not_or] at h h1
        simp [h1.1, h1.2] at h
      · rw [if_neg (by simpa using h2), if_neg h3]
    · rw [if_pos (by simpa using h2)]

theorem terminal_state_frozen (s : RoomState) (h : (s.winner.isSome || s.isDraw) = true)
    (mover : Color) (f t : Nat) (promo : Option Kind) :
    processMove s mover f t promo = s := by
  rw [processMove, if_pos h]

theorem check_select (c : RoomState) :
    (if c.turn = Color.white then isKingInCheck c.board .white c.movedPieces c.enPassantTarget
     else isKingInCheck c.board .black c.movedPieces c.enPassantTarget)
      = isKingInCheck c.board c.turn c.movedPieces c.enPassantTarget := by
  cases hh : c.turn <;> simp [hh]

theorem length_setCellI (b : Board) (i : Int) (v : Cell) :
    (setCellI b i v).length = b.length := by
  rw [setCellI]; split
  · rfl
  · rw [length_setCell]


theorem getD_false_of_ne_some_true {o : Option Bool} (h : o ≠ some true) :
    o.getD false = false := by
  cases o with
  | none => rfl
  | some b =>
    cases b
    · rfl
    · exact absurd rfl h

theorem cellAtI_coe (b : Board) (n : Nat) : cellAtI b (n : Int) = getCell b n := by
  rw [cellAtI, if_neg (by omega)]
  congr 1

/-- If the walk never arrives exactly at the target coordinates, it never
answers "clear" (it either hits an occupied square or exhausts its fuel). -/
theorem pathGo_ne_true (b : Board) (tr tc dr dc : Int) :
    ∀ (fuel : Nat) (r c : Int), (∀ j : Nat, ¬(r + j * dr = tr ∧ c + j * dc = tc)) →
    pathGo b tr tc dr dc fuel r c ≠ some true := by
  intro fuel
  induction fuel with
  | zero => intro r c _; simp [pathGo]
  | succ n ih =>
    intro r c hj
    rw [pathGo]
    split
    next htgt => exact absurd htgt (by simpa using hj 0)
    next =>
      split
      · simp
      · refine ih (r + dr) (c + dc) fun j => ?_
        have h := hj (j + 1)
        intro hcon
        apply h
        push_cast
        constructor
        · rw [show r + ((j : Int) + 1) * dr = r + dr + (j : Int) * dr by ring]
          exact hcon.1
        · rw [show c + ((j : Int) + 1) * dc = c + dc + (j : Int) * dc by ring]
          exact hcon.2

/-- If some square on the walk before the target is occupied, the walk
never answers "clear". -/
theorem pathGo_blocked_ne_true (b : Board) (tr tc dr dc : Int) :
    ∀ (fuel j0 : Nat) (r c : Int),
      (cellAtI b ((r + j0 * dr) * 8 + (c + j0 * dc))).isSome = true →
      (∀ j : Nat, j ≤ j0 → ¬(r + j * dr = tr ∧ c + j * dc = tc)) →
      pathGo b tr tc dr dc fuel r c ≠ some true := by
  intro fuel
  induction fuel with
  | zero => intro j0 r c _ _; simp [pathGo]
  | succ n ih =>
    intro j0 r c hocc hj
    rw [pathGo]
    split
    next htgt => exact absurd htgt (by simpa using hj 0 (Nat.zero_le _))
    next =>
      split
      · simp
      next hnocc =>
        cases j0 with
        | zero =>
          refine absurd ?_ hnocc
          simpa using hocc
        | succ j1 =>
          refine ih j1 (r + dr) (c + dc) ?_ ?_
          · have heq : (r + dr + (j1 : Int) * dr) * 8 + (c + dc + (j1 : Int) * dc)
                = (r + ((j1 : Nat) + 1 : Nat) * dr) * 8 + (c + ((j1 : Nat) + 1 : Nat) * dc) := by
              push_cast
              ring
            rw [heq]
            exact hocc
          · intro j hji
            have h := hj (j + 1) (by omega)
            intro hcon
            apply h
            push_cast
            constructor
            · rw [show r + ((j : Int) + 1) * dr = r + dr + (j : Int) * dr by ring]
              exact hcon.1
            · rw [show c + ((j : Int) + 1) * dc = c + dc + (j : Int) * dc by ring]
              exact hcon.2

/-- The geometric fact behind the shallowness of the mutual recursion: a
"castling" move whose destination two files away is occupied (by the very
king being attacked) always finds its king-to-rook path blocked — on the
straight walk the occupied destination lies strictly between king and rook
square, and when the rook index wraps to another row the walk can never
reach it. -/
theorem castle_path_blocked (b : Board) (f kp : Nat)
    (hocc : (getCell b kp).isSome = true)
    (hrow : f / 8 = kp / 8) (hcol : dist (f % 8) (kp % 8) = 2) :
    ¬((cellAtI b (if kp % 8 > f % 8 then (f : Int) + 3 else (f : Int) - 4)).isSome = true ∧
      pathClearB f (if kp % 8 > f % 8 then (f : Int) + 3 else (f : Int) - 4).toNat b = true) := by
  rw [dist] at hcol
  have hf8 : f = 8 * (f / 8) + f % 8 := (Nat.div_add_mod f 8).symm
  have hkp8 : kp = 8 * (kp / 8) + kp % 8 := (Nat.div_add_mod kp 8).symm
  by_cases hside : kp % 8 > f % 8
  · rw [if_pos hside]
    have hkp : kp = f + 2 := by omega
    have htoNat : ((f : Int) + 3).toNat = f + 3 := by omega
    rintro ⟨-, hclear⟩
    rw [htoNat, pathClearB] at hclear
    have hne : isPathClear f (f + 3) b ≠ some true := by
      rw [isPathClear]
      by_cases hfc : f % 8 ≤ 4
      · have hdiv : (f + 3) / 8 = f / 8 := by omega
        have hmod : (f + 3) % 8 = f % 8 + 3 := by omega
        rw [hdiv, hmod]
        rw [show stepDir (f / 8) (f / 8) = 0 from by rw [stepDir, if_pos rfl]]
        rw [show stepDir (f % 8) (f % 8 + 3) = 1 from by
          rw [stepDir, if_neg (by omega), if_pos (by omega)]]
        apply pathGo_blocked_ne_true b _ _ _ _ _ 1
        · have h0 : ((f / 8 : Nat) : Int) + 0 + (1 : Nat) * 0 = ((f / 8 : Nat) : Int) := by ring
          rw [h0]
          have hidx : (((f / 8 : Nat) : Int)) * 8 + (((f % 8 : Nat) : Int) + 1 + (1 : Nat) * 1)
              = ((kp : Nat) : Int) := by push_cast; omega
          rw [hidx, cellAtI_coe]
          exact hocc
        · intro j hj
          push_cast
          intro hcon
          interval_cases j <;> omega
      · have hdiv : (f + 3) / 8 = f / 8 + 1 := by omega
        have hmod : (f + 3) % 8 = 0 := by omega
        rw [hdiv, hmod]
        rw [show stepDir (f / 8) (f / 8 + 1) = 1 from by
          rw [stepDir, if_neg (by omega), if_pos (by omega)]]
        rw [show stepDir (f % 8) 0 = -1 from by
          rw [stepDir, if_neg (by omega), if_neg (by omega)]]
        apply pathGo_ne_true
        intro j
        push_cast
        intro hcon
        omega
    exact absurd hclear (by rw [getD_false_of_ne_some_true hne]; simp)
  · rw [if_neg hside]
    rintro ⟨hcell, hclear⟩
    by_cases hf4 : f < 4
    · rw [cellAtI, if_pos (by omega)] at hcell
      simp at hcell
    · have hkp : kp + 2 = f := by omega
      have htoNat : ((f : Int) - 4).toNat = f - 4 := by omega
      rw [htoNat, pathClearB] at hclear
      have hne : isPathClear f (f - 4) b ≠ some true := by
        rw [isPathClear]
        by_cases hfc : f % 8 ≥ 4
        · have hdiv : (f - 4) / 8 = f / 8 := by omega
          have hmod : (f - 4) % 8 = f % 8 - 4 := by omega
          rw [hdiv, hmod]
          rw [show stepDir (f / 8) (f / 8) = 0 from by rw [stepDir, if_pos rfl]]
          rw [show stepDir (f % 8) (f % 8 - 4) = -1 from by
            rw [stepDir, if_neg (by omega), if_neg (by omega)]]
          apply pathGo_blocked_ne_true b _ _ _ _ _ 1
          · have h0 : ((f / 8 : Nat) : Int) + 0 + (1 : Nat) * 0 = ((f / 8 : Nat) : Int) := by ring
            rw [h0]
            have hidx : (((f / 8 : Nat) : Int)) * 8 + (((f % 8 : Nat) : Int) + (-1) + (1 : Nat) * (-1))
                = ((kp : Nat) : Int) := by push_cast; omega
            rw [hidx, cellAtI_coe]
            exact hocc
          · intro j hj
            push_cast
            intro hcon
            interval_cases j <;> omega
        · have hr1 : f / 8 ≥ 1 := by omega
          have hdiv : (f - 4) / 8 = f / 8 - 1 := by omega
          have hmod : (f - 4) % 8 = f % 8 + 4 := by omega
          rw [hdiv, hmod]
          rw [show stepDir (f / 8) (f / 8 - 1) = -1 from by
            rw [stepDir, if_neg (by omega), if_neg (by omega)]]
          rw [show stepDir (f % 8) (f % 8 + 4) = 1 from by
            rw [stepDir, if_neg (by omega), if_pos (by omega)]]
          apply pathGo_ne_true
          intro j
          push_cast
          intro hcon
          omega
      exact absurd hclear (by rw [getD_false_of_ne_some_true hne]; simp)

theorem findIdx?_found {α : Type} (p : α → Bool) :
    ∀ (l : List α) (i : Nat), l.findIdx? p = some i → ∃ a, l.get? i = some a ∧ p a = true := by
  intro l
  induction l with
  | nil => intro i h; simp [List.findIdx?] at h
  | cons x xs ih =>
    intro i h
    rw [List.findIdx?_cons] at h
    by_cases hp : p x
    · simp [hp] at h
      subst h
      exact ⟨x, rfl, hp⟩
    · simp [hp] at h
      cases i with
      | zero =>
        exfalso
        cases hfi : xs.findIdx? p <;> simp [hfi] at h
      | succ n =>
        obtain ⟨a, ha, hpa⟩ := ih n (by
          cases hfi : xs.findIdx? p
          · simp [hfi] at h
          · simp [hfi] at h ⊢; omega)
        exact ⟨a, ha, hpa⟩

/-- The legality verdict does not depend on the fuel (beyond one unit) when
the destination square is occupied: the only fuel-consuming branch is the
castling consultation of `isKingInCheck`, whose guard `castle_path_blocked`
shows to be false in that situation. -/
theorem isMoveLegalF_fuel_stable (fuel₁ fuel₂ : Nat) (f t : Nat) (b : Board) (pc : Color)
    (moved : List Int) (ep : Int) (htgt : (getCell b t).isSome = true) :
    isMoveLegalF (fuel₁ + 1) f t b pc moved ep = isMoveLegalF (fuel₂ + 1) f t b pc moved ep := by
  simp only [isMoveLegalF]
  cases hcell : getCell b f with
  | none => rfl
  | some piece =>
    dsimp only
    by_cases hc : piece.color ≠ pc
    · rw [if_pos hc, if_pos hc]
    · rw [if_neg hc, if_neg hc]
      by_cases hsame : (match getCell b t with
          | some q => decide (q.color = pc)
          | none => false) = true
      · rw [if_pos hsame, if_pos hsame]
      · rw [if_neg hsame, if_neg hsame]
        cases hpk : piece.kind
        any_goals rfl
        by_cases h1 : dist (f / 8) (t / 8) ≤ 1 ∧ dist (f % 8) (t % 8) ≤ 1
        · rw [if_pos h1, if_pos h1]
        · rw [if_neg h1, if_neg h1]
          by_cases h2 : dist (f / 8) (t / 8) = 0 ∧ dist (f % 8) (t % 8) = 2 ∧
              ¬((f : Int) ∈ moved)
          · rw [if_pos h2, if_pos h2]
            by_cases h3 : (cellAtI b (if t % 8 > f % 8 then (f : Int) + 3
                  else (f : Int) - 4)).isSome = true ∧
                ¬((if t % 8 > f % 8 then (f : Int) + 3 else (f : Int) - 4) ∈ moved) ∧
                pathClearB f (if t % 8 > f % 8 then (f : Int) + 3
                  else (f : Int) - 4).toNat b = true
            · exfalso
              refine castle_path_blocked b f t htgt ?_ h2.2.1 ⟨h3.1, h3.2.2⟩
              have h0 := h2.1
              rw [dist] at h0
              omega
            · rw [if_neg h3, if_neg h3]
          · rw [if_neg h2, if_neg h2]

/-- The check verdict is independent of the fuel from two units up: every
pseudo-legal attack scanned has the located king's occupied square as its
destination, so `isMoveLegalF_fuel_stable` applies. -/
theorem isKingInCheckF_fuel_stable (fuel₁ fuel₂ : Nat) (b : Board) (c : Color)
    (moved : List Int) (ep : Int) :
    isKingInCheckF (fuel₁ + 2) b c moved ep = isKingInCheckF (fuel₂ + 2) b c moved ep := by
  rw [show fuel₁ + 2 = (fuel₁ + 1) + 1 from rfl, show fuel₂ + 2 = (fuel₂ + 1) + 1 from rfl]
  simp only [isKingInCheckF]
  cases hfind : b.findIdx? (fun cell => decide (cell = some ⟨c, .K⟩)) with
  | none => rfl
  | some kp =>
    obtain ⟨a, ha, hpa⟩ := findIdx?_found _ b kp hfind
    have hkp : (getCell b kp).isSome = true := by
      rw [getCell, List.getD_eq_getElem?_getD, ← List.get?_eq_getElem?, ha]
      simp at hpa
      simp [hpa]
    dsimp only
    congr 1
    funext i
    cases hcelli : getCell b i with
    | none => rfl
    | some p =>
      dsimp only
      rw [isMoveLegalF_fuel_stable fuel₁ fuel₂ i kp b c.other moved ep hkp]

/-- The fuel-63 check performed inside the castling branch of `isMoveLegal`
agrees with the fuel-64 public `isKingInCheck`. -/
theorem isKingInCheckF_63_eq (b : Board) (c : Color) (moved : List Int) (ep : Int) :
    isKingInCheckF 63 b c moved ep = isKingInCheck b c moved ep := by
  rw [isKingInCheck]
  exact isKingInCheckF_fuel_stable 61 62 b c moved ep

/-! ### Claim C6 -/

/-- Claim C6: a MOVE proposal that fails validation — the game is already
decided, it is not the proposer's turn, or the move is illegal — leaves the
authoritative room state (board, turn, movedPieces, enPassantTarget,
winner, isDraw) exactly as it was: the handler returns before any mutation,
and legal-move simulation only ever touches copies. -/
theorem rejected_proposal_no_side_effect (s : RoomState) (mover : Color) (f t : Nat)
    (promo : Option Kind) (h : accepts s mover f t = false) :
    processMove s mover f t promo = s :=
  processMove_rejected s mover f t promo h

/-- Claim C6, witness: a proposal by black while it is white's turn leaves
the pinned-rook position untouched. -/
theorem rejected_proposal_no_side_effect_witness :
    processMove pinState .black 52 50 none = pinState :=
  rejected_proposal_no_side_effect pinState .black 52 50 none (by rfl)

/-! ### Claim C1 -/

/-- Claim C1, counterexample: the pinned white rook's move e2-c2 is
accepted although its simulation leaves the white king attacked by the
black e8 rook, and the handler commits a mutated state.  The legality gate
of the source returns bare pseudo-legality ("Suicide moves allowed"): there
is no simulate-and-check filter. -/
theorem self_check_move_accepted_counterexample :
    accepts pinState .white 52 50 = true ∧
    isKingInCheck (simulateMove pinState.board 52 50) .white
      pinState.movedPieces pinState.enPassantTarget = true ∧
    processMove pinState .white 52 50 none ≠ pinState := by
  refine ⟨by rfl, by rfl, by decide⟩

/-- Claim C1 (amended: a move is accepted only if it is pseudo-legal for
the moving piece; the handler performs no post-move self-check, so moves
leaving the mover's own king attacked are accepted and committed). -/
theorem accepted_only_if_pseudo_legal (s : RoomState) (mover : Color) (f t : Nat)
    (h : accepts s mover f t = true) :
    isMoveLegal f t s.board mover s.movedPieces s.enPassantTarget = true :=
  (accepts_spec s mover f t h).2.2.2

/-- Claim C1, witness: e2-e4 is accepted from the initial position, hence
pseudo-legal. -/
theorem accepted_only_if_pseudo_legal_witness :
    isMoveLegal 52 36 initialState.board .white
      initialState.movedPieces initialState.enPassantTarget = true :=
  accepted_only_if_pseudo_legal initialState .white 52 36 (by rfl)



/-! ### Claim C8 -/

theorem stepDir_reach (a b : Nat) : (a : Int) + (dist a b) * stepDir a b = b := by
  rw [stepDir, dist]
  split_ifs with h1 h2
  · simp; omega
  · rw [mul_one]
    omega
  · rw [mul_neg_one]
    omega

theorem stepDir_not_reach (a b : Nat) (k : Nat) (hk : k < dist a b) :
    ((a : Int) + k * stepDir a b ≠ b) := by
  rw [stepDir, dist] at *
  split_ifs with h1 h2
  · omega
  · rw [mul_one]
    omega
  · rw [mul_neg_one]
    omega

theorem stepDir_bounds (a b : Nat) (k : Nat) (hk : k ≤ dist a b) :
    min a b ≤ (a : Int) + k * stepDir a b ∧ (a : Int) + k * stepDir a b ≤ max a b := by
  rw [stepDir, dist] at *
  split_ifs with h1 h2
  · push_cast; omega
  · rw [mul_one]
    omega
  · rw [mul_neg_one]
    omega


/-- The walk of `isPathClear`, specified along the parameterized line: with
enough fuel it terminates and answers "clear" exactly when every cell at
the intermediate walk positions is empty. -/
theorem pathGo_walk_spec (b : Board) (r1 c1 r2 c2 dr dc : Int) (n : Nat)
    (hreach : r1 + n * dr = r2 ∧ c1 + n * dc = c2)
    (hmiss : ∀ k : Nat, k < n → ¬(r1 + k * dr = r2 ∧ c1 + k * dc = c2)) :
    ∀ m k fuel, k + m = n → m < fuel →
    ((pathGo b r2 c2 dr dc fuel (r1 + k * dr) (c1 + k * dc)).isSome = true ∧
     ((pathGo b r2 c2 dr dc fuel (r1 + k * dr) (c1 + k * dc)) = some true ↔
       ∀ j : Nat, k ≤ j → j < n → cellAtI b ((r1 + j * dr) * 8 + (c1 + j * dc)) = none)) := by
  intro m
  induction m with
  | zero =>
    intro k fuel hk hfuel
    cases fuel with
    | zero => omega
    | succ fl =>
      have hkn : k = n := by omega
      subst hkn
      rw [pathGo, if_pos ⟨hreach.1, hreach.2⟩]
      refine ⟨rfl, ?_⟩
      constructor
      · intro _ j hj1 hj2
        omega
      · intro _
        rfl
  | succ m ih =>
    intro k fuel hk hfuel
    cases fuel with
    | zero => omega
    | succ fl =>
      rw [pathGo, if_neg (hmiss k (by omega))]
      cases hocc : (cellAtI b ((r1 + k * dr) * 8 + (c1 + k * dc))).isSome with
      | true =>
        rw [if_pos rfl]
        refine ⟨rfl, ?_⟩
        constructor
        · intro h
          exact absurd h (by simp)
        · intro hall
          exfalso
          have h0 := hall k (Nat.le_refl k) (by omega)
          rw [h0] at hocc
          simp at hocc
      | false =>
        rw [if_neg (by simp)]
        have hposr : r1 + k * dr + dr = r1 + ((k + 1 : Nat) : Int) * dr := by push_cast; ring
        have hposc : c1 + k * dc + dc = c1 + ((k + 1 : Nat) : Int) * dc := by push_cast; ring
        rw [hposr, hposc]
        obtain ⟨hsome, hiff⟩ := ih (k + 1) fl (by omega) (by omega)
        refine ⟨hsome, ?_⟩
        rw [hiff]
        constructor
        · intro hall j hj1 hj2
          rcases Nat.eq_or_lt_of_le hj1 with hjk | hjk
          · subst hjk
            exact Option.not_isSome_iff_eq_none.mp (by simp [hocc])
          · exact hall j (by omega) hj2
        · intro hall j hj1 hj2
          exact hall j (by omega) hj2


/-- Claim C8: for distinct aligned squares (same rank, same file, or same
diagonal), `isPathClear` terminates (returns `some`) and answers `true`
exactly when every square strictly between the two endpoints (exclusive)
is empty.  Alignment is genuinely required: on non-aligned inputs the
source loop can run forever, which the embedding records as `none`. -/
theorem isPathClear_aligned_spec (b : Board) (f t : Nat)
    (hft : f ≠ t) (hf : f < 64) (ht : t < 64)
    (hal : f / 8 = t / 8 ∨ f % 8 = t % 8 ∨ dist (f / 8) (t / 8) = dist (f % 8) (t % 8)) :
    (isPathClear f t b).isSome = true ∧
    (isPathClear f t b = some true ↔
      ∀ s : Nat, s < 64 → betweenB f t s = true → getCell b s = none) := by
  have hn1 : 1 ≤ max (dist (f / 8) (t / 8)) (dist (f % 8) (t % 8)) := by
    simp only [dist]
    omega
  have hn7 : max (dist (f / 8) (t / 8)) (dist (f % 8) (t % 8)) ≤ 7 := by
    simp only [dist]
    omega
  have hreachR : ((f / 8 : Nat) : Int) +
      (max (dist (f / 8) (t / 8)) (dist (f % 8) (t % 8))) * stepDir (f / 8) (t / 8)
        = ((t / 8 : Nat) : Int) := by
    rcases hal with h | h | h
    · rw [h, stepDir, if_pos rfl, mul_zero, add_zero]
    · rw [show max (dist (f / 8) (t / 8)) (dist (f % 8) (t % 8)) = dist (f / 8) (t / 8) from by
        rw [h]
        simp [dist]]
      exact stepDir_reach _ _
    · rw [show max (dist (f / 8) (t / 8)) (dist (f % 8) (t % 8)) = dist (f / 8) (t / 8) from by
        rw [h, Nat.max_self]]
      exact stepDir_reach _ _
  have hreachC : ((f % 8 : Nat) : Int) +
      (max (dist (f / 8) (t / 8)) (dist (f % 8) (t % 8))) * stepDir (f % 8) (t % 8)
        = ((t % 8 : Nat) : Int) := by
    rcases hal with h | h | h
    · rw [show max (dist (f / 8) (t / 8)) (dist (f % 8) (t % 8)) = dist (f % 8) (t % 8) from by
        rw [h]
        simp [dist]]
      exact stepDir_reach _ _
    · rw [h, stepDir, if_pos rfl, mul_zero, add_zero]
    · rw [show max (dist (f / 8) (t / 8)) (dist (f % 8) (t % 8)) = dist (f % 8) (t % 8) from by
        rw [h, Nat.max_self]]
      exact stepDir_reach _ _
  have hmiss : ∀ k : Nat, k < max (dist (f / 8) (t / 8)) (dist (f % 8) (t % 8)) →
      ¬(((f / 8 : Nat) : Int) + k * stepDir (f / 8) (t / 8) = ((t / 8 : Nat) : Int) ∧
        ((f % 8 : Nat) : Int) + k * stepDir (f % 8) (t % 8) = ((t % 8 : Nat) : Int)) := by
    intro k hk hcon
    rcases hal with h | h | h
    · refine stepDir_not_reach (f % 8) (t % 8) k ?_ hcon.2
      have h0 : dist (f / 8) (t / 8) = 0 := by rw [h]; simp [dist]
      omega
    · refine stepDir_not_reach (f / 8) (t / 8) k ?_ hcon.1
      have h0 : dist (f % 8) (t % 8) = 0 := by rw [h]; simp [dist]
      omega
    · refine stepDir_not_reach (f / 8) (t / 8) k ?_ hcon.1
      omega
  have hboundR : ∀ k : Nat, k ≤ max (dist (f / 8) (t / 8)) (dist (f % 8) (t % 8)) →
      0 ≤ ((f / 8 : Nat) : Int) + k * stepDir (f / 8) (t / 8) ∧
      ((f / 8 : Nat) : Int) + k * stepDir (f / 8) (t / 8) ≤ 7 := by
    intro k hk
    by_cases hrr : f / 8 = t / 8
    · rw [hrr, stepDir, if_pos rfl, mul_zero, add_zero]
      constructor <;> omega
    · have hnn : max (dist (f / 8) (t / 8)) (dist (f % 8) (t % 8)) = dist (f / 8) (t / 8) := by
        rcases hal with h | h | h
        · exact absurd h hrr
        · rw [h]
          simp [dist]
        · rw [h, Nat.max_self]
      have hb := stepDir_bounds (f / 8) (t / 8) k (by omega)
      push_cast at hb
      constructor <;> omega
  have hboundC : ∀ k : Nat, k ≤ max (dist (f / 8) (t / 8)) (dist (f % 8) (t % 8)) →
      0 ≤ ((f % 8 : Nat) : Int) + k * stepDir (f % 8) (t % 8) ∧
      ((f % 8 : Nat) : Int) + k * stepDir (f % 8) (t % 8) ≤ 7 := by
    intro k hk
    by_cases hcc : f % 8 = t % 8
    · rw [hcc, stepDir, if_pos rfl, mul_zero, add_zero]
      constructor <;> omega
    · have hnn : max (dist (f / 8) (t / 8)) (dist (f % 8) (t % 8)) = dist (f % 8) (t % 8) := by
        rcases hal with h | h | h
        · rw [h]
          simp [dist]
        · exact absurd h hcc
        · rw [h, Nat.max_self]
      have hb := stepDir_bounds (f % 8) (t % 8) k (by omega)
      push_cast at hb
      constructor <;> omega
  have hmain := pathGo_walk_spec b ((f / 8 : Nat) : Int) ((f % 8 : Nat) : Int)
    ((t / 8 : Nat) : Int) ((t % 8 : Nat) : Int)
    (stepDir (f / 8) (t / 8)) (stepDir (f % 8) (t % 8))
    (max (dist (f / 8) (t / 8)) (dist (f % 8) (t % 8))) ⟨hreachR, hreachC⟩ hmiss
    (max (dist (f / 8) (t / 8)) (dist (f % 8) (t % 8)) - 1) 1 64 (by omega) (by omega)
  have hpos1r : ((f / 8 : Nat) : Int) + ((1 : Nat) : Int) * stepDir (f / 8) (t / 8)
      = ((f / 8 : Nat) : Int) + stepDir (f / 8) (t / 8) := by push_cast; ring
  have hpos1c : ((f % 8 : Nat) : Int) + ((1 : Nat) : Int) * stepDir (f % 8) (t % 8)
      = ((f % 8 : Nat) : Int) + stepDir (f % 8) (t % 8) := by push_cast; ring
  rw [hpos1r, hpos1c] at hmain
  obtain ⟨hsome, hiff⟩ := hmain
  constructor
  · simp only [isPathClear]
    exact hsome
  · simp only [isPathClear]
    rw [hiff]
    constructor
    · intro hall s hs hbet
      rw [betweenB] at hbet
      simp only [List.any_eq_true, List.mem_range, Bool.and_eq_true, decide_eq_true_eq] at hbet
      obtain ⟨k, hk8, ⟨⟨hk0, hkn⟩, hsr⟩, hsc⟩ := hbet
      have h0 := hall k hk0 hkn
      have hidx : (((f / 8 : Nat) : Int) + k * stepDir (f / 8) (t / 8)) * 8 +
          (((f % 8 : Nat) : Int) + k * stepDir (f % 8) (t % 8)) = (s : Int) := by
        rw [← hsr, ← hsc]
        push_cast
        omega
      rw [hidx, cellAtI_coe] at h0
      exact h0
    · intro hall j hj1 hjn
      obtain ⟨hrl, hru⟩ := hboundR j (by omega)
      obtain ⟨hcl, hcu⟩ := hboundC j (by omega)
      set v : Int := (((f / 8 : Nat) : Int) + j * stepDir (f / 8) (t / 8)) * 8 +
          (((f % 8 : Nat) : Int) + j * stepDir (f % 8) (t % 8)) with hv
      have hv0 : 0 ≤ v := by rw [hv]; omega
      have hv63 : v ≤ 63 := by rw [hv]; omega
      have hsN : v.toNat < 64 := by omega
      have hcast : ((v.toNat : Nat) : Int) = v := by omega
      have hbet : betweenB f t v.toNat = true := by
        rw [betweenB]
        simp only [List.any_eq_true, List.mem_range, Bool.and_eq_true, decide_eq_true_eq]
        refine ⟨j, by omega, ⟨⟨hj1, hjn⟩, ?_⟩, ?_⟩
        · omega
        · omega
      have h0 := hall v.toNat hsN hbet
      rw [← hcast, cellAtI_coe]
      exact h0


/-- Claim C8, witness: the walk down the empty a-file from a7 to a5
terminates and reports a clear path. -/
theorem isPathClear_aligned_spec_witness :
    (isPathClear 8 24 blankBoard).isSome = true ∧ isPathClear 8 24 blankBoard = some true := by
  have h := isPathClear_aligned_spec blankBoard 8 24 (by decide) (by decide) (by decide)
    (Or.inr (Or.inl (by decide)))
  exact ⟨h.1, h.2.mpr (by decide)⟩

/-! ### Claim C2 -/

/-- Claim C2, counterexample: the kingside castle e1-g1 is accepted in
`castleAttackState` even though the transit square f1 (and hence the
king's path) is attacked by the black rook on f8 — the engine checks only
that the king's start square is not in check, never the transit or the
destination square. -/
theorem castle_through_attacked_square_counterexample :
    accepts castleAttackState .white 60 62 = true ∧
    isMoveLegal 5 61 castleAttackState.board .black
      castleAttackState.movedPieces castleAttackState.enPassantTarget = true := by
  exact ⟨by rfl, by rfl⟩

/-- Claim C2 (amended: an accepted two-file king move guarantees that the
king's square and the relevant rook index are absent from `movedPieces`,
that the rook index is occupied, that the squares strictly between king and
rook index are empty, and that the king is not in check on its start square
— but no attack test is made on the transit or destination squares, and
the occupant of the rook index is not required to be a rook). -/
theorem castling_checks_only_start_square (s : RoomState) (mover : Color) (f t : Nat)
    (hA : accepts s mover f t = true)
    (hK : getCell s.board f = some ⟨mover, .K⟩)
    (hRow : f / 8 = t / 8)
    (hCol : dist (f % 8) (t % 8) = 2) :
    ¬((f : Int) ∈ s.movedPieces) ∧
    (cellAtI s.board (if t % 8 > f % 8 then (f : Int) + 3 else (f : Int) - 4)).isSome = true ∧
    ¬((if t % 8 > f % 8 then (f : Int) + 3 else (f : Int) - 4) ∈ s.movedPieces) ∧
    pathClearB f (if t % 8 > f % 8 then (f : Int) + 3 else (f : Int) - 4).toNat s.board = true ∧
    isKingInCheck s.board mover s.movedPieces s.enPassantTarget = false := by
  have hL := (accepts_spec s mover f t hA).2.2.2
  rw [isMoveLegal, show (64 : Nat) = 63 + 1 from rfl, isMoveLegalF, hK] at hL
  dsimp only at hL
  rw [if_neg (by simp)] at hL
  by_cases hsame : (match getCell s.board t with
      | some q => decide (q.color = mover)
      | none => false) = true
  · rw [if_pos hsame] at hL
    exact absurd hL (by simp)
  · rw [if_neg hsame] at hL
    have hrd : dist (f / 8) (t / 8) = 0 := by rw [hRow, dist]; omega
    rw [if_neg (by rw [hrd, hCol]; omega)] at hL
    by_cases hmem : (f : Int) ∈ s.movedPieces
    · rw [if_neg (by intro h; exact h.2.2 hmem)] at hL
      exact absurd hL (by simp)
    · rw [if_pos ⟨hrd, hCol, hmem⟩] at hL
      by_cases h3 : (cellAtI s.board (if t % 8 > f % 8 then (f : Int) + 3
            else (f : Int) - 4)).isSome = true ∧
          ¬((if t % 8 > f % 8 then (f : Int) + 3 else (f : Int) - 4) ∈ s.movedPieces) ∧
          pathClearB f (if t % 8 > f % 8 then (f : Int) + 3
            else (f : Int) - 4).toNat s.board = true
      · rw [if_pos h3] at hL
        refine ⟨hmem, h3.1, h3.2.1, h3.2.2, ?_⟩
        rw [← isKingInCheckF_63_eq]
        simpa using hL
      · rw [if_neg h3] at hL
        exact absurd hL (by simp)

/-- Claim C2, witness: the accepted castle of `castleAttackState`
instantiated in the amended theorem — rook square h1 (index 63) occupied
and unmoved, path clear, start square not attacked. -/
theorem castling_checks_only_start_square_witness :
    ¬((60 : Int) ∈ castleAttackState.movedPieces) ∧
    (cellAtI castleAttackState.board 63).isSome = true ∧
    ¬((63 : Int) ∈ castleAttackState.movedPieces) ∧
    pathClearB 60 63 castleAttackState.board = true ∧
    isKingInCheck castleAttackState.board .white
      castleAttackState.movedPieces castleAttackState.enPassantTarget = false := by
  exact castling_checks_only_start_square castleAttackState .white 60 62
    (by rfl) (by rfl) (by rfl) (by rfl)

/-! ### Claim C5 -/

/-- Claim C5, counterexample: the MOVE handler promotes to Queen
unconditionally — it never reads a promotion kind from the message — so a
promotion requesting a Knight still yields a Queen at the destination. -/
theorem promotion_ignores_requested_kind_counterexample :
    accepts promoState .white 8 0 = true ∧
    getCell (processMove promoState .white 8 0 (some .N)).board 0 = some ⟨.white, .Q⟩ ∧
    getCell (processMove promoState .white 8 0 (some .N)).board 0 ≠ some ⟨.white, .N⟩ := by
  refine ⟨by rfl, by rfl, by decide⟩

/-- Claim C5 (amended: every accepted pawn move to the farthest rank
places a Queen of the mover's color on the destination, whatever promotion
kind the message carries — the handler has no promotion parameter). -/
theorem promotion_always_queen (s : RoomState) (mover : Color) (f t : Nat) (promo : Option Kind)
    (hA : accepts s mover f t = true)
    (hp : getCell s.board f = some ⟨mover, .P⟩)
    (hR : t / 8 = 0 ∨ t / 8 = 7)
    (hlen : s.board.length = 64) :
    getCell (processMove s mover f t promo).board t = some ⟨mover, .Q⟩ := by
  rw [processMove_accepted s mover f t promo hA, evalOutcome_board]
  have ht64 : t < 64 := by omega
  simp only [commitMove, hp, cellKindIs]
  rw [if_pos (by simp [hR])]
  apply getCell_setCell_self
  repeat' split
  all_goals simp [length_setCellI, length_setCell, length_simulateMove, hlen, ht64]

/-- Claim C5, witness: the a7-a8 promotion with a Knight requested (and
with no kind requested the theorem applies unchanged) yields a Queen. -/
theorem promotion_always_queen_witness :
    getCell (processMove promoState .white 8 0 none).board 0 = some ⟨.white, .Q⟩ :=
  promotion_always_queen promoState .white 8 0 none (by rfl) (by rfl) (by decide) (by rfl)

/-! ### Claim C7 -/

/-- Claim C7: after an accepted move the en-passant target is the midpoint
square exactly when the move was a pawn move over 16 board indices (the
two-square advance), and is reset to `-1` otherwise; the midpoint is the
square jumped over; a pawn's diagonal step onto the en-passant target of
the current ply is pseudo-legal; and once the target is `-1` a diagonal
pawn step onto an empty square is rejected — so the capture is accepted
only on the ply immediately following the double advance. -/
theorem enpassant_window :
    (∀ (s : RoomState) (mover : Color) (f t : Nat) (promo : Option Kind),
      accepts s mover f t = true →
      (processMove s mover f t promo).enPassantTarget =
        (if cellKindIs (getCell s.board f) .P && decide (dist f t = 16)
         then (((f + t) / 2 : Nat) : Int) else (-1 : Int))) ∧
    (∀ f t : Nat, dist f t = 16 → (f + t) / 2 = min f t + 8) ∧
    (∀ (s : RoomState) (c : Color) (f t : Nat),
      s.enPassantTarget = (t : Nat) → getCell s.board f = some ⟨c, .P⟩ →
      getCell s.board t = none → dist (f % 8) (t % 8) = 1 →
      (t / 8 : Int) = (f / 8 : Int) + (if c = .white then -1 else 1) →
      isMoveLegal f t s.board c s.movedPieces s.enPassantTarget = true) ∧
    (∀ (s : RoomState) (c : Color) (f t : Nat),
      s.enPassantTarget = -1 → cellKindIs (getCell s.board f) .P = true →
      getCell s.board t = none → f % 8 ≠ t % 8 →
      isMoveLegal f t s.board c s.movedPieces s.enPassantTarget = false) := by
  refine ⟨?_, ?_, ?_, ?_⟩
  · intro s mover f t promo hA
    rw [processMove_accepted s mover f t promo hA, evalOutcome_enPassantTarget]
    rfl
  · intro f t h
    rw [dist] at h
    omega
  · intro s c f t hep hp hT hcd hrow
    have hC : f % 8 ≠ t % 8 := by rw [dist] at hcd; omega
    rw [isMoveLegal, show (64 : Nat) = 63 + 1 from rfl, isMoveLegalF, hp]
    simp [hT, hC, hcd, hrow, hep]
  · intro s c f t hep hP hT hC
    obtain ⟨p, hp, hk⟩ : ∃ p, getCell s.board f = some p ∧ p.kind = .P := by
      rw [cellKindIs.eq_def] at hP
      split at hP
      next p h => exact ⟨p, h, by simpa using hP⟩
      next => simp at hP
    rw [isMoveLegal, show (64 : Nat) = 63 + 1 from rfl, isMoveLegalF, hp]
    simp only [hk, hT]
    have hne : ((-1 : Int) ≠ (t : Nat)) := by omega
    simp [hC, hep, hne]

/-- Claim C7, witness: e2-e4 sets the target to e3 (square 44); the
immediate capture e5xd6 in `epCaptureState` is legal; with the target
absent the same-shaped diagonal step in `epRejectState` is rejected. -/
theorem enpassant_window_witness :
    (processMove initialState .white 52 36 none).enPassantTarget = 44 ∧
    isMoveLegal 28 19 epCaptureState.board .white
      epCaptureState.movedPieces epCaptureState.enPassantTarget = true ∧
    isMoveLegal 28 19 epRejectState.board .white
      epRejectState.movedPieces epRejectState.enPassantTarget = false := by
  refine ⟨?_, ?_, ?_⟩
  · rw [enpassant_window.1 initialState .white 52 36 none (by rfl)]
    rfl
  · exact enpassant_window.2.2.1 epCaptureState .white 28 19 (by rfl) (by rfl) (by rfl)
      (by decide) (by decide)
  · exact enpassant_window.2.2.2 epRejectState .white 28 19 (by rfl) (by rfl) (by rfl)
      (by decide)

/-! ### Claim C3 -/

/-- Claim C3: after an accepted move, if the exhaustive search finds no
legal escape for the side now to move, then the mover is declared winner
exactly when that side's king is attacked, and the game is a draw
(stalemate) exactly otherwise; and any state with a winner or a draw flag
is terminal — every further proposal returns it unchanged. -/
theorem no_escape_is_checkmate_or_stalemate (s : RoomState) (mover : Color) (f t : Nat)
    (promo : Option Kind) (hA : accepts s mover f t = true) :
    (hasLegalEscapes (processMove s mover f t promo).board (processMove s mover f t promo).turn
        (processMove s mover f t promo).movedPieces
        (processMove s mover f t promo).enPassantTarget = false →
      (((processMove s mover f t promo).winner = some mover) ↔
        isKingInCheck (processMove s mover f t promo).board (processMove s mover f t promo).turn
          (processMove s mover f t promo).movedPieces
          (processMove s mover f t promo).enPassantTarget = true) ∧
      ((processMove s mover f t promo).isDraw = true ↔
        isKingInCheck (processMove s mover f t promo).board (processMove s mover f t promo).turn
          (processMove s mover f t promo).movedPieces
          (processMove s mover f t promo).enPassantTarget = false)) ∧
    (∀ mover2 f2 t2 promo2,
      ((processMove s mover f t promo).winner.isSome ||
        (processMove s mover f t promo).isDraw) = true →
      processMove (processMove s mover f t promo) mover2 f2 t2 promo2
        = processMove s mover f t promo) := by
  obtain ⟨hw, hd, -, -⟩ := accepts_spec s mover f t hA
  refine ⟨?_, fun m2 f2 t2 p2 hterm => terminal_state_frozen _ hterm m2 f2 t2 p2⟩
  rw [processMove_accepted s mover f t promo hA]
  intro hEsc
  rw [evalOutcome_board, evalOutcome_turn, evalOutcome_movedPieces,
    evalOutcome_enPassantTarget] at hEsc ⊢
  have hcw : (commitMove s mover f t).winner = none := hw
  have hcd : (commitMove s mover f t).isDraw = false := hd
  simp only [evalOutcome, hEsc, Bool.not_false, if_true]
  rw [check_select]
  cases hK : isKingInCheck (commitMove s mover f t).board (commitMove s mover f t).turn
      (commitMove s mover f t).movedPieces (commitMove s mover f t).enPassantTarget
  · simp [hcw]
  · simp [hcd]

/-- Claim C3, witness: the back-rank mate Rh7-h8 from `mateState` leaves
black with no escape while in check, so white is declared the winner. -/
theorem no_escape_is_checkmate_or_stalemate_witness :
    (processMove mateState .white 15 7 none).winner = some .white := by
  have h := (no_escape_is_checkmate_or_stalemate mateState .white 15 7 none (by rfl)).1 (by rfl)
  exact h.1.mpr (by rfl)

/-! ### Claim C4 -/

theorem applyMoves_append (s : RoomState) (xs ys : List (Color × Nat × Nat)) :
    applyMoves s (xs ++ ys) = applyMoves (applyMoves s xs) ys := by
  induction xs generalizing s with
  | nil => rfl
  | cons m ms ih => simp only [List.cons_append, applyMoves, List.append_eq, ih]

theorem quietAccepted_append (s : RoomState) (xs ys : List (Color × Nat × Nat)) :
    quietAccepted s (xs ++ ys)
      = (quietAccepted s xs && quietAccepted (applyMoves s xs) ys) := by
  induction xs generalizing s with
  | nil => simp [quietAccepted, applyMoves]
  | cons m ms ih =>
    simp only [List.cons_append, quietAccepted, applyMoves, List.append_eq, ih, Bool.and_assoc]

set_option maxHeartbeats 2000000 in
theorem kingsCycle_fixed : applyMoves kingsCycleState kingShuffle = kingsCycleState := by rfl

set_option maxHeartbeats 2000000 in
theorem kingShuffleRep_fixed (n : Nat) :
    applyMoves kingsCycleState (kingShuffleRep n) = kingsCycleState ∧
    quietAccepted kingsCycleState (kingShuffleRep n) = true := by
  induction n with
  | zero => exact ⟨rfl, rfl⟩
  | succ n ih =>
    rw [kingShuffleRep]
    constructor
    · rw [applyMoves_append, kingsCycle_fixed, ih.1]
    · rw [quietAccepted_append, kingsCycle_fixed, ih.2]
      rfl

set_option maxHeartbeats 2000000 in
/-- Claim C4, counterexample: the room state has no half-move clock at all.
From the bare-kings position the two kings shuffle for 100 consecutive
plies, each accepted and none a pawn move or a capture — under the claim a
half-move clock would have counted to 100 and forced `draw_50_move` — yet
the resulting state is not a draw (and has no winner): the only draw the
engine ever produces is stalemate. -/
theorem fifty_move_rule_counterexample :
    quietAccepted kingsState (kingShuffleRep 25) = true ∧
    (kingShuffleRep 25).length = 100 ∧
    (applyMoves kingsState (kingShuffleRep 25)).isDraw = false ∧
    (applyMoves kingsState (kingShuffleRep 25)).winner = none := by
  have hsplit : kingShuffleRep 25 = kingShuffle ++ kingShuffleRep 24 := rfl
  have hfirst : applyMoves kingsState kingShuffle = kingsCycleState := by rfl
  refine ⟨?_, by rfl, ?_, ?_⟩
  · rw [hsplit, quietAccepted_append, hfirst, (kingShuffleRep_fixed 24).2]
    rfl
  · rw [hsplit, applyMoves_append, hfirst, (kingShuffleRep_fixed 24).1]
    rfl
  · rw [hsplit, applyMoves_append, hfirst, (kingShuffleRep_fixed 24).1]
    rfl

/-- Claim C4 (amended: the engine maintains no half-move clock and never
adjudicates a fifty-move draw; an accepted move can set the draw flag only
through the stalemate branch — no escape for the side to move while its
king is not attacked). -/
theorem draw_arises_only_from_stalemate (s : RoomState) (mover : Color) (f t : Nat)
    (promo : Option Kind) (h : (processMove s mover f t promo).isDraw = true) :
    s.isDraw = true ∨
    (accepts s mover f t = true ∧
      hasLegalEscapes (processMove s mover f t promo).board (processMove s mover f t promo).turn
        (processMove s mover f t promo).movedPieces
        (processMove s mover f t promo).enPassantTarget = false ∧
      isKingInCheck (processMove s mover f t promo).board (processMove s mover f t promo).turn
        (processMove s mover f t promo).movedPieces
        (processMove s mover f t promo).enPassantTarget = false) := by
  by_cases hA : accepts s mover f t = true
  · right
    obtain ⟨hw, hd, -, -⟩ := accepts_spec s mover f t hA
    have hcw : (commitMove s mover f t).winner = none := hw
    have hcd : (commitMove s mover f t).isDraw = false := hd
    rw [processMove_accepted s mover f t promo hA] at h ⊢
    rw [evalOutcome_board, evalOutcome_turn, evalOutcome_movedPieces, evalOutcome_enPassantTarget]
    cases hEsc : hasLegalEscapes (commitMove s mover f t).board (commitMove s mover f t).turn
        (commitMove s mover f t).movedPieces (commitMove s mover f t).enPassantTarget
    · simp only [evalOutcome, hEsc, Bool.not_false, if_true] at h
      rw [check_select] at h
      cases hK : isKingInCheck (commitMove s mover f t).board (commitMove s mover f t).turn
          (commitMove s mover f t).movedPieces (commitMove s mover f t).enPassantTarget
      · exact ⟨hA, rfl, rfl⟩
      · rw [hK] at h
        simp [hcd] at h
    · simp [evalOutcome, hEsc, hcd] at h
  · left
    rw [processMove_rejected s mover f t promo (by simpa using hA)] at h
    exact h

/-- Claim C4, witness: Qa6-b6 stalemates the bare black king, and the
amended theorem attributes the resulting draw flag to the stalemate
branch. -/
theorem draw_arises_only_from_stalemate_witness :
    staleState.isDraw = true ∨
    (accepts staleState .white 16 17 = true ∧
      hasLegalEscapes (processMove staleState .white 16 17 none).board
        (processMove staleState .white 16 17 none).turn
        (processMove staleState .white 16 17 none).movedPieces
        (processMove staleState .white 16 17 none).enPassantTarget = false ∧
      isKingInCheck (processMove staleState .white 16 17 none).board
        (processMove staleState .white 16 17 none).turn
        (processMove staleState .white 16 17 none).movedPieces
        (processMove staleState .white 16 17 none).enPassantTarget = false) :=
  draw_arises_only_from_stalemate staleState .white 16 17 none (by rfl)


/-! ### Claim C10 -/

set_option maxHeartbeats 4000000 in
theorem knightCastleState_reached : knightCastleState = knightCastleStateLit := by rfl

set_option maxHeartbeats 4000000 in
/-- Claim C10: a reachable state (eight plies of ordinary play from the
initial position, each accepted by the handler) in which the piece on the
kingside rook home square h1 is a black knight, yet white's two-file king
move e1-g1 is accepted — the castling test only requires the square to be
occupied and unmoved, never that it holds a rook of the moving color — and
the executor then relocates that knight to f1, beside the white king now
on g1. -/
theorem castle_with_foreign_piece_on_rook_square :
    getCell knightCastleState.board 63 = some ⟨.black, .N⟩ ∧
    accepts knightCastleState .white 60 62 = true ∧
    getCell (processMove knightCastleState .white 60 62 none).board 61 = some ⟨.black, .N⟩ ∧
    getCell (processMove knightCastleState .white 60 62 none).board 62 = some ⟨.white, .K⟩ := by
  rw [knightCastleState_reached]
  exact ⟨by rfl, by rfl, by rfl, by rfl⟩

end LudoServer
